import Mathlib

/-!
Verification of the metrics engine of `src/Group16/final.py`.

The engine is embedded shallowly: trading dates are absolute day numbers
(`Int`), prices and returns are exact rationals (`ℚ`).  The irrational
quantities of the Python code (CAGR via `** (1/years)`, the annualized
standard deviations via `sqrt`) are represented by their exact rational
ingredients (`cagrBase`, `years`, the sample variances), and the real-valued
formulas appear in the theorems through `Real.sqrt` and real exponentiation.
The provider table (`yfinance` DataFrame) is a list of date-indexed rows with
either single-level or two-level column labels; `pd.to_datetime` on a
user-supplied date string is abstracted by its outcome (`DateInput`).
Python exceptions become an explicit error type: the two `ValueError`s of
`fetch_price_and_metrics` plus the uncontrolled `IndexError` (empty frame
after `dropna`) and `ZeroDivisionError` (`1/years` with `years == 0.0`)
that the raw code can raise.
-/

/-- Embedding of `format_ticker` (final.py lines 30-38): strip and uppercase the raw
symbol; the domestic market (美國) gets no suffix, 台灣/日本/英國 get
".TW"/".T"/".L", and any other market value gets the dictionary default "". -/
def format_ticker (raw market : String) : String :=
  let r := raw.trim.toUpper
  if market = "美國" then r
  else r ++ (if market = "台灣" then ".TW"
             else if market = "日本" then ".T"
             else if market = "英國" then ".L"
             else "")

/-- Column labels of a provider table: a single level, or a two-level
MultiIndex as returned by batch queries. -/
inductive Cols where
  | single (labels : List String)
  | multi (labels : List (String × String))

/-- The single-level names of a column structure (level 0 for a MultiIndex). -/
def colNames : Cols → List String
  | .single ls => ls
  | .multi ls => ls.map Prod.fst

/-- A provider table: column labels plus date-indexed rows whose values are
aligned with the labels. -/
structure Frame where
  cols : Cols
  data : List (Int × List ℚ)

/-- Embedding of `flatten` (lines 40-46): if the columns are a MultiIndex, replace them by
their first level; otherwise return the table unchanged. -/
def flatten (f : Frame) : Frame :=
  match f.cols with
  | .multi ls => { cols := .single (ls.map Prod.fst), data := f.data }
  | .single _ => f

/-- Extract a named column of a table as a date-indexed series
(`df["Adj Close"]`). -/
def getCol (f : Frame) (name : String) : List (Int × ℚ) :=
  match (colNames f.cols).indexOf? name with
  | none => []
  | some i => f.data.map (fun r => (r.1, (r.2.get? i).getD 0))

/-- A single-level provider table carrying just the "Adj Close" series. -/
def frameOf (s : List (Int × ℚ)) : Frame :=
  { cols := .single ["Adj Close"], data := s.map (fun r => (r.1, [r.2])) }

/-- Outcome of `pd.to_datetime` on a user-supplied date string: a calendar
date (as an absolute day number) or a parse failure. -/
inductive DateInput where
  | valid (d : Int)
  | malformed
deriving DecidableEq

/-- The ways `fetch_price_and_metrics` terminates abnormally: the three
`ValueError`s it raises itself, plus the uncontrolled `IndexError`
(`iloc[0]` on the frame emptied by `dropna`) and `ZeroDivisionError`
(`1/years` with `years == 0.0`). -/
inductive FetchError where
  | dataUnavailable
  | invalidDateFormat
  | emptyRange
  | indexOutOfBounds
  | zeroDivision
deriving DecidableEq

/-- One row of the cleaned DataFrame after lines 80-82: trading date,
adjusted close, simple daily return, cumulative compounded return. -/
structure Row where
  date : Int
  adjClose : ℚ
  ret : ℚ
  cum : ℚ
deriving DecidableEq

/-- Embedding of `df["Return"] = df["Adj Close"].pct_change()` followed by
`df.dropna(subset=["Return"])` (lines 80-81): every observation from the
second one on, paired with its simple daily return. -/
def pctRows : List (Int × ℚ) → List (Int × ℚ × ℚ)
  | [] => []
  | [_] => []
  | (_, p0) :: (d1, p1) :: rest => (d1, p1, p1 / p0 - 1) :: pctRows ((d1, p1) :: rest)

/-- Embedding of `df["CumReturn"] = (1 + df["Return"]).cumprod() - 1` (line 82); `acc` is
the running product of the `1 + Return` factors. -/
def attachCum (acc : ℚ) : List (Int × ℚ × ℚ) → List Row
  | [] => []
  | (d, p, r) :: rest =>
      let a := acc * (1 + r)
      { date := d, adjClose := p, ret := r, cum := a - 1 } :: attachCum a rest

/-- Lines 80-82: the ReturnSeries rows derived from a cleaned price series. -/
def deriveRows (s : List (Int × ℚ)) : List Row :=
  attachCum 1 (pctRows s)

/-- Mean of a list of rationals. -/
def listMean (l : List ℚ) : ℚ := l.sum / (l.length : ℚ)

/-- The square of pandas `Series.std()`: the sample variance with
`ddof = 1`.  For `n ≤ 1` pandas yields NaN; that branch is unreachable on
the paths settled here (the code crashes earlier whenever fewer than two
returns exist) and is mapped to 0. -/
def sampleVar (l : List ℚ) : ℚ :=
  if l.length ≤ 1 then 0
  else ((l.map (fun x => (x - listMean l) ^ 2)).sum) / ((l.length : ℚ) - 1)

/-- The global `risk_free_rate = 0` (line 26). -/
def risk_free_rate : ℚ := 0

/-- The exact rational core of the `metrics` dict (lines 102-111).  The
irrational entries are carried by their exact ingredients:
`cagr = cagrBase ^ (1/years) - 1` with `cagrBase` the ratio of the last to
the first adjusted close of the dropped frame; `std_annual =
Real.sqrt (252 * retVar)`; `d_std = Real.sqrt (252 * downVar)`.
`sortinoNan` records the `if d_std` guard of line 100; `d_std = 0` exactly
when `downVar = 0` (theorem `d_std_zero_iff`). -/
structure MetricsCore where
  start : Int
  stop : Int
  years : ℚ
  cum : ℚ
  cagrBase : ℚ
  retVar : ℚ
  downVar : ℚ
  sortinoNan : Bool
deriving DecidableEq

/-- Lines 84-111: the statistics computed on the dropped frame.  `iloc[0]` /
`iloc[-1]` on an emptied frame raise an IndexError; `1/years` with
`years == 0.0` raises a ZeroDivisionError (`365.25 = 1461/4` days per year). -/
def computeMetrics (rows : List Row) : Except FetchError (List Row × MetricsCore) :=
  match rows.head?, rows.getLast? with
  | some r0, some r1 =>
      let years : ℚ := ((r1.date - r0.date : Int) : ℚ) / (1461 / 4)
      if years = 0 then .error .zeroDivision
      else
        let downs := rows.map (fun r => min r.ret 0)
        .ok (rows,
          { start := r0.date
            stop := r1.date
            years := years
            cum := r1.cum * 100
            cagrBase := r1.adjClose / r0.adjClose
            retVar := sampleVar (rows.map Row.ret)
            downVar := sampleVar downs
            sortinoNan := decide (sampleVar downs = 0) })
  | _, _ => .error .indexOutOfBounds

/-- One optional date bound (lines 63-74): a missing bound keeps the series,
a malformed date string raises the date-format `ValueError`, a valid one
filters by the predicate `keep`. -/
def applyBound (b : Option DateInput) (keep : Int → Int → Bool)
    (s : List (Int × ℚ)) : Except FetchError (List (Int × ℚ)) :=
  match b with
  | none => .ok s
  | some .malformed => .error .invalidDateFormat
  | some (.valid d) => .ok (s.filter (fun r => keep d r.1))

/-- Embedding of `fetch_price_and_metrics` (lines 49-112): flatten the provider table,
fail with `dataUnavailable` if it is empty or lacks an "Adj Close" column,
apply the start bound (`Date >= sd`) then the end bound (`Date <= ed`),
fail with `emptyRange` if no row remains, then derive the return rows and
the metrics. -/
def fetch_price_and_metrics (raw : Frame) (start_date end_date : Option DateInput) :
    Except FetchError (List Row × MetricsCore) :=
  let df := flatten raw
  if df.data = [] ∨ "Adj Close" ∉ colNames df.cols then .error .dataUnavailable
  else
    match applyBound start_date (fun sd t => sd ≤ t) (getCol df "Adj Close") with
    | .error e => .error e
    | .ok s1 =>
      match applyBound end_date (fun ed t => t ≤ ed) s1 with
      | .error e => .error e
      | .ok s2 =>
        if s2 = [] then .error .emptyRange
        else computeMetrics (deriveRows s2)

/-- The failure of `calculate_retirement` (lines 209-213): the annualized
return does not outpace inflation. -/
inductive RetireError where
  | insufficientReturn
deriving DecidableEq

/-- The retirement estimate of `calculate_retirement` (lines 210-214):
`annPct` is `m["ann"]` (the annualized return in percent), `infl` the
inflation rate as a fraction, `expense` the annual expense. -/
def retirement_estimate (annPct infl expense : ℚ) : Except RetireError ℚ :=
  let real_withdraw := annPct / 100 - infl
  if real_withdraw ≤ 0 then .error .insufficientReturn
  else .ok (expense / real_withdraw)

deriving instance DecidableEq for Except

set_option maxRecDepth 4000

/-- C4: the retirement estimate fails with InsufficientReturn exactly when
`annualized_return - inflation_rate ≤ 0`, and otherwise returns
`annual_expense / real_withdrawal_rate`; 7% return, 2% inflation and
40000 expense give 800000, while 1% return and 2% inflation fail. -/
theorem retirement_estimate_spec :
    (∀ annPct infl expense : ℚ,
      (retirement_estimate annPct infl expense = .error .insufficientReturn ↔
        annPct / 100 - infl ≤ 0) ∧
      (0 < annPct / 100 - infl →
        retirement_estimate annPct infl expense = .ok (expense / (annPct / 100 - infl)))) ∧
    retirement_estimate 7 (2 / 100) 40000 = .ok 800000 ∧
    retirement_estimate 1 (2 / 100) 40000 = .error .insufficientReturn := by
  refine ⟨fun annPct infl expense => ⟨?_, ?_⟩, by with_unfolding_all rfl,
    by with_unfolding_all rfl⟩
  · simp only [retirement_estimate]
    split_ifs with h
    · simp [h]
    · simp [h]
  · intro h
    simp only [retirement_estimate]
    rw [if_neg (not_le.mpr h)]

/-- Witness for C4 at `annPct = 7`, `infl = 5/100`, `expense = 40000`. -/
theorem retirement_estimate_spec_witness :
    0 < (7 : ℚ) / 100 - 5 / 100 ∧
    retirement_estimate 7 (5 / 100) 40000 = .ok (40000 / ((7 : ℚ) / 100 - 5 / 100)) :=
  ⟨by norm_num, (retirement_estimate_spec.1 7 (5 / 100) 40000).2 (by norm_num)⟩

/-- C8: `format_ticker` uppercases and trims the raw symbol, appends no
suffix for the domestic market (美國), appends exactly ".TW"/".T"/".L" for
台灣/日本/英國, and appends no suffix for any unrecognized market value;
in particular `format_ticker "0050" 台灣 = "0050.TW"` and
`format_ticker " aapl " 美國 = "AAPL"`. -/
theorem format_ticker_spec :
    (∀ raw : String,
      format_ticker raw "美國" = raw.trim.toUpper ∧
      format_ticker raw "台灣" = raw.trim.toUpper ++ ".TW" ∧
      format_ticker raw "日本" = raw.trim.toUpper ++ ".T" ∧
      format_ticker raw "英國" = raw.trim.toUpper ++ ".L") ∧
    (∀ raw market : String,
      market ∉ (["美國", "台灣", "日本", "英國"] : List String) →
      format_ticker raw market = raw.trim.toUpper) ∧
    format_ticker "0050" "台灣" = "0050.TW" ∧
    format_ticker " aapl " "美國" = "AAPL" := by
  refine ⟨fun raw => ⟨?_, ?_, ?_, ?_⟩, fun raw market h => ?_, ?_, ?_⟩
  · simp [format_ticker]
  · simp [format_ticker]
  · simp [format_ticker]
  · simp [format_ticker]
  · have h1 : market ≠ "美國" := fun hm => h (by simp [hm])
    have h2 : market ≠ "台灣" := fun hm => h (by simp [hm])
    have h3 : market ≠ "日本" := fun hm => h (by simp [hm])
    have h4 : market ≠ "英國" := fun hm => h (by simp [hm])
    simp [format_ticker, h1, h2, h3, h4]
  · with_unfolding_all rfl
  · with_unfolding_all rfl

/-- Witness for C8 at a concrete unrecognized market value. -/
theorem format_ticker_spec_witness :
    format_ticker " msft" "未知" = " msft".trim.toUpper :=
  format_ticker_spec.2.1 " msft" "未知" (by decide)

/-- C9: the DataUnavailable check (empty table or missing "Adj Close"
column) is performed before any date parsing, so such a request fails with
`dataUnavailable` for every pair of date inputs, malformed ones included. -/
theorem fetch_dataUnavailable_precedes_dates (f : Frame) (sd ed : Option DateInput)
    (h : (flatten f).data = [] ∨ "Adj Close" ∉ colNames (flatten f).cols) :
    fetch_price_and_metrics f sd ed = .error .dataUnavailable := by
  simp only [fetch_price_and_metrics]
  rw [if_pos h]

/-- Witness for C9: a table lacking "Adj Close", queried with a malformed
start date, reports `dataUnavailable`, not `invalidDateFormat`. -/
theorem fetch_dataUnavailable_precedes_dates_witness :
    fetch_price_and_metrics ⟨Cols.single ["Open"], [((0 : Int), [(1 : ℚ)])]⟩
      (some .malformed) none = .error .dataUnavailable :=
  fetch_dataUnavailable_precedes_dates _ _ _ (Or.inr (by decide))

/-- C7: a multi-level provider table and a single-level one carrying the
same rows (and the same level-0 column names) give identical results through
the whole pipeline - flattening followed by the metrics computation. -/
theorem flatten_equivalence (labels : List (String × String)) (names : List String)
    (data : List (Int × List ℚ)) (sd ed : Option DateInput)
    (h : labels.map Prod.fst = names) :
    fetch_price_and_metrics ⟨Cols.multi labels, data⟩ sd ed =
      fetch_price_and_metrics ⟨Cols.single names, data⟩ sd ed := by
  have hf : flatten ⟨Cols.multi labels, data⟩ = flatten ⟨Cols.single names, data⟩ := by
    simp [flatten, h]
  unfold fetch_price_and_metrics
  rw [hf]

/-- Witness for C7 on a concrete two-column pair of tables. -/
theorem flatten_equivalence_witness :
    fetch_price_and_metrics
      ⟨Cols.multi [("Adj Close", "AAPL"), ("Volume", "AAPL")],
        [((0 : Int), [(100 : ℚ), 5]), (365, [200, 6]), (730, [400, 7])]⟩ none none =
    fetch_price_and_metrics
      ⟨Cols.single ["Adj Close", "Volume"],
        [((0 : Int), [(100 : ℚ), 5]), (365, [200, 6]), (730, [400, 7])]⟩ none none :=
  flatten_equivalence _ _ _ none none (by decide)

/-- C2 (code bug): date filters that keep zero rows do fail with
`emptyRange` (start after end, or a range with no trading day), but the
degenerate one-row case does not - `dropna` empties the frame and
`iloc[0]` raises an uncontrolled IndexError instead of the EmptyRange
ValueError, so the reported failure differs from the spec there. -/
theorem emptyRange_one_row_bug :
    fetch_price_and_metrics (frameOf [(0, 100), (1, 110)]) (some (.valid 5)) (some (.valid 3))
      = .error .emptyRange ∧
    fetch_price_and_metrics (frameOf [(0, 100), (1, 110)]) (some (.valid 2)) (some (.valid 9))
      = .error .emptyRange ∧
    fetch_price_and_metrics (frameOf [(0, 100), (1, 110)]) (some (.valid 1)) none
      = .error .indexOutOfBounds ∧
    fetch_price_and_metrics (frameOf [(0, 100), (1, 110)]) (some (.valid 1)) none
      ≠ .error .emptyRange :=
  ⟨by with_unfolding_all rfl, by with_unfolding_all rfl, by with_unfolding_all rfl,
    of_decide_eq_false (by with_unfolding_all rfl)⟩

/-- C3 (code bug): on the synthetic two-point series {(day0, 100),
(day365, 110)} the code does not compute years ≈ 1 and CAGR ≈ 10%: after
`pct_change` and `dropna` a single row remains, so `t0 = t1 = day365`,
`years = 0.0`, and `1/years` raises ZeroDivisionError. -/
theorem two_point_series_bug :
    fetch_price_and_metrics (frameOf [(0, 100), (365, 110)]) none none
      = .error .zeroDivision ∧
    deriveRows [(0, 100), (365, 110)]
      = [{ date := 365, adjClose := 110, ret := 1 / 10, cum := 1 / 10 }] :=
  ⟨by with_unfolding_all rfl, by with_unfolding_all rfl⟩

theorem pctRows_length (d : Int) (p : ℚ) (rest : List (Int × ℚ)) :
    (pctRows ((d, p) :: rest)).length = rest.length := by
  induction rest generalizing d p with
  | nil => rfl
  | cons x xs ih =>
    obtain ⟨d1, p1⟩ := x
    simp [pctRows, ih]

theorem attachCum_length (l : List (Int × ℚ × ℚ)) (a : ℚ) :
    (attachCum a l).length = l.length := by
  induction l generalizing a with
  | nil => rfl
  | cons x xs ih =>
    obtain ⟨d, p, r⟩ := x
    simp [attachCum, ih]

theorem getLast?_cons_of_ne_nil {α} (r : α) {l : List α} (h : l ≠ []) :
    (r :: l).getLast? = l.getLast? := by
  cases l with
  | nil => exact absurd rfl h
  | cons b t => exact List.getLast?_cons_cons

/-- The last cumulative return telescopes: over the rows derived from
`(d0, p0) :: rest` with running product seeded at `a`, the final CumReturn
is `a * (lastPrice / p0) - 1`. -/
theorem attachCum_pctRows_cum_getLast (rest : List (Int × ℚ)) :
    ∀ (d0 : Int) (p0 a : ℚ), p0 ≠ 0 → (∀ x ∈ rest, x.2 ≠ 0) →
    ((attachCum a (pctRows ((d0, p0) :: rest))).getLast?).map Row.cum
      = (rest.getLast?).map (fun x => a * (x.2 / p0) - 1) := by
  induction rest with
  | nil => intro d0 p0 a _ _; rfl
  | cons x xs ih =>
    intro d0 p0 a hp0 hx
    obtain ⟨d1, p1⟩ := x
    have hp1 : p1 ≠ 0 := hx (d1, p1) (List.mem_cons_self _ _)
    cases xs with
    | nil =>
      simp only [pctRows, attachCum, List.getLast?_singleton, Option.map_some',
        List.getLast?_cons_cons]
      congr 1
      field_simp
    | cons y ys =>
      have hxs : ∀ z ∈ (y :: ys : List (Int × ℚ)), z.2 ≠ 0 :=
        fun z hz => hx z (List.mem_cons_of_mem _ hz)
      have hlen : (attachCum (a * (1 + (p1 / p0 - 1))) (pctRows ((d1, p1) :: y :: ys))) ≠ [] := by
        intro hcontra
        have := congrArg List.length hcontra
        rw [attachCum_length, pctRows_length] at this
        simp at this
      have hstep := ih d1 p1 (a * (1 + (p1 / p0 - 1))) hp1 hxs
      have h1 : pctRows ((d0, p0) :: (d1, p1) :: y :: ys)
          = (d1, p1, p1 / p0 - 1) :: pctRows ((d1, p1) :: y :: ys) := rfl
      have h2 : attachCum a ((d1, p1, p1 / p0 - 1) :: pctRows ((d1, p1) :: y :: ys))
          = { date := d1, adjClose := p1, ret := p1 / p0 - 1,
              cum := a * (1 + (p1 / p0 - 1)) - 1 }
            :: attachCum (a * (1 + (p1 / p0 - 1))) (pctRows ((d1, p1) :: y :: ys)) := rfl
      rw [h1, h2, getLast?_cons_of_ne_nil _ hlen, hstep,
        getLast?_cons_of_ne_nil (d1, p1) (List.cons_ne_nil y ys)]
      cases hy : (y :: ys : List (Int × ℚ)).getLast? with
      | none => simp at hy
      | some q =>
        simp only [Option.map_some']
        congr 1
        field_simp
        ring

/-- C1 counterexample: for the 3-point series 100, 200, 400 the final
cumulative return is 400/100 - 1 = 3, not
`finalPrice / firstRetainedPrice - 1 = 400/200 - 1 = 1` - the cumulative
product telescopes to the dropped first observation, not to the start of
the ReturnSeries. -/
theorem returnSeries_cum_base_counterexample :
    (deriveRows [(0, 100), (1, 200), (2, 400)]).length = 2 ∧
    ((deriveRows [(0, 100), (1, 200), (2, 400)]).getLast?).map Row.cum = some 3 ∧
    ((deriveRows [(0, 100), (1, 200), (2, 400)]).getLast?).map Row.cum
      ≠ some ((400 : ℚ) / 200 - 1) :=
  ⟨by with_unfolding_all rfl, by with_unfolding_all rfl,
    of_decide_eq_false (by with_unfolding_all rfl)⟩

/-- C1 (amended): for a cleaned PriceSeries with N ≥ 2 observations and
nonzero prices, the ReturnSeries has exactly N - 1 entries and the final
cumulative return is `finalPrice / firstPrice - 1`, where `firstPrice` is
the price of the series' first observation - the one dropped from the
ReturnSeries - not of the ReturnSeries' first entry. -/
theorem returnSeries_length_cum (d0 : Int) (p0 : ℚ) (rest : List (Int × ℚ))
    (hne : rest ≠ []) (hp0 : p0 ≠ 0) (hp : ∀ x ∈ rest, x.2 ≠ 0) :
    (deriveRows ((d0, p0) :: rest)).length = rest.length ∧
    ((deriveRows ((d0, p0) :: rest)).getLast?).map Row.cum
      = some ((rest.getLast hne).2 / p0 - 1) := by
  constructor
  · rw [deriveRows, attachCum_length, pctRows_length]
  · rw [deriveRows, attachCum_pctRows_cum_getLast rest d0 p0 1 hp0 hp,
      List.getLast?_eq_getLast rest hne]
    simp

/-- Witness for C1 on the series 100, 200, 300: two return entries, final
cumulative return 300/100 - 1 = 2. -/
theorem returnSeries_length_cum_witness :
    (deriveRows [(0, 100), (1, 200), (2, 300)]).length = 2 ∧
    ((deriveRows [(0, 100), (1, 200), (2, 300)]).getLast?).map Row.cum = some 2 := by
  have h := returnSeries_length_cum 0 100 [(1, 200), (2, 300)] (by decide)
    (by norm_num) (by norm_num)
  exact ⟨h.1, h.2.trans (by norm_num)⟩

theorem getCol_frameOf (s : List (Int × ℚ)) : getCol (frameOf s) "Adj Close" = s := by
  have hidx : (["Adj Close"] : List String).indexOf? "Adj Close" = some 0 := by
    with_unfolding_all rfl
  simp only [getCol, frameOf, colNames, hidx]
  simp only [List.map_map]
  have hf : ((fun r : Int × List ℚ => (r.1, (r.2.get? 0).getD 0))
        ∘ fun r : Int × ℚ => (r.1, [r.2])) = id := by
    funext r
    rfl
  rw [hf, List.map_id]

theorem sampleVar_nonneg (l : List ℚ) : 0 ≤ sampleVar l := by
  unfold sampleVar
  split
  · exact le_refl 0
  · rename_i h
    apply div_nonneg
    · apply List.sum_nonneg
      intro x hx
      simp only [List.mem_map] at hx
      obtain ⟨y, _, rfl⟩ := hx
      positivity
    · have h2 : 2 ≤ l.length := by omega
      have : (2 : ℚ) ≤ (l.length : ℚ) := by exact_mod_cast h2
      linarith

theorem sampleVar_all_zero (l : List ℚ) (h : ∀ x ∈ l, x = 0) : sampleVar l = 0 := by
  unfold sampleVar
  split
  · rfl
  · have hsum : l.sum = 0 := List.sum_eq_zero h
    have hm : listMean l = 0 := by unfold listMean; rw [hsum]; exact zero_div _
    have hsq : (l.map (fun x => (x - listMean l) ^ 2)).sum = 0 := by
      apply List.sum_eq_zero
      intro x hx
      simp only [List.mem_map] at hx
      obtain ⟨y, hy, rfl⟩ := hx
      rw [h y hy, hm]
      ring
    rw [hsq]
    exact zero_div _

theorem attachCum_map_date (l : List (Int × ℚ × ℚ)) (a : ℚ) :
    (attachCum a l).map Row.date = l.map (fun t => t.1) := by
  induction l generalizing a with
  | nil => rfl
  | cons x xs ih =>
    obtain ⟨d, p, r⟩ := x
    simp [attachCum, ih]

theorem pctRows_map_fst (rest : List (Int × ℚ)) :
    ∀ (d : Int) (p : ℚ), (pctRows ((d, p) :: rest)).map (fun t => t.1) = rest.map Prod.fst := by
  induction rest with
  | nil => intro d p; rfl
  | cons x xs ih =>
    intro d p
    obtain ⟨d1, p1⟩ := x
    simp only [pctRows, List.map_cons]
    rw [ih d1 p1]

theorem deriveRows_map_date (d : Int) (p : ℚ) (rest : List (Int × ℚ)) :
    (deriveRows ((d, p) :: rest)).map Row.date = rest.map Prod.fst := by
  rw [deriveRows, attachCum_map_date, pctRows_map_fst]

theorem fetch_frameOf_no_bounds (s : List (Int × ℚ)) (hne : s ≠ []) :
    fetch_price_and_metrics (frameOf s) none none = computeMetrics (deriveRows s) := by
  have hflat : flatten (frameOf s) = frameOf s := rfl
  have hcond : ¬((flatten (frameOf s)).data = []
      ∨ "Adj Close" ∉ colNames (flatten (frameOf s)).cols) := by
    rw [hflat]
    simp [frameOf, colNames, hne]
  simp only [fetch_price_and_metrics]
  rw [if_neg hcond]
  simp only [applyBound]
  rw [hflat, getCol_frameOf]
  rw [if_neg hne]

/-- C6: for a valid cleaned PriceSeries with at least 3 observations and
positive prices, `fetch_price_and_metrics` succeeds with every summary
field produced, the Sortino value is the guarded NaN exactly when the
downside deviation `sqrt(252 * downVar)` is exactly zero, and it is the
guarded NaN whenever every daily return is non-negative. -/
theorem sortino_nan_guard (s : List (Int × ℚ))
    (hsort : s.Pairwise (fun x y => x.1 < y.1)) (hlen : 3 ≤ s.length)
    (hpos : ∀ x ∈ s, 0 < x.2) :
    ∃ m : MetricsCore,
      fetch_price_and_metrics (frameOf s) none none = .ok (deriveRows s, m) ∧
      (m.sortinoNan = true ↔ Real.sqrt (252 * (m.downVar : ℝ)) = 0) ∧
      ((∀ r ∈ deriveRows s, 0 ≤ r.ret) → m.sortinoNan = true) := by
  cases s with
  | nil => simp at hlen
  | cons a s1 =>
    cases s1 with
    | nil => simp at hlen
    | cons b s2 =>
      cases s2 with
      | nil => simp at hlen
      | cons c tl =>
        obtain ⟨da, pa⟩ := a
        have hrl : (deriveRows ((da, pa) :: b :: c :: tl)).length = tl.length + 2 := by
          simp only [deriveRows]
          rw [attachCum_length, pctRows_length]
          simp
        have hrne : deriveRows ((da, pa) :: b :: c :: tl) ≠ [] := by
          intro h
          rw [h] at hrl
          simp at hrl
        have h0 : (deriveRows ((da, pa) :: b :: c :: tl)).head?
            = some ((deriveRows ((da, pa) :: b :: c :: tl)).head hrne) := List.head?_eq_head hrne
        have h1 : (deriveRows ((da, pa) :: b :: c :: tl)).getLast?
            = some ((deriveRows ((da, pa) :: b :: c :: tl)).getLast hrne) :=
          List.getLast?_eq_getLast _ hrne
        have hdates : (deriveRows ((da, pa) :: b :: c :: tl)).map Row.date
            = (b :: c :: tl).map Prod.fst := deriveRows_map_date da pa _
        have hr0date : ((deriveRows ((da, pa) :: b :: c :: tl)).head hrne).date = b.1 := by
          have hh := congrArg List.head? hdates
          rw [List.head?_map, h0] at hh
          simp at hh
          exact hh
        have hlastne : (b :: c :: tl : List (Int × ℚ)) ≠ [] := List.cons_ne_nil _ _
        have hr1date : ((deriveRows ((da, pa) :: b :: c :: tl)).getLast hrne).date
            = ((b :: c :: tl).getLast hlastne).1 := by
          have hh := congrArg List.getLast? hdates
          rw [List.getLast?_map, h1, List.getLast?_map,
            List.getLast?_eq_getLast _ hlastne] at hh
          simp at hh
          exact hh
        have hblast : b.1 < ((b :: c :: tl).getLast hlastne).1 := by
          have hpw : (b :: c :: tl).Pairwise (fun x y => x.1 < y.1) :=
            (List.pairwise_cons.mp hsort).2
          have hctlne : (c :: tl : List (Int × ℚ)) ≠ [] := List.cons_ne_nil _ _
          have hmem : (b :: c :: tl).getLast hlastne ∈ c :: tl := by
            rw [List.getLast_cons hctlne]
            exact List.getLast_mem hctlne
          exact (List.pairwise_cons.mp hpw).1 _ hmem
        have hy : ((((deriveRows ((da, pa) :: b :: c :: tl)).getLast hrne).date
              - ((deriveRows ((da, pa) :: b :: c :: tl)).head hrne).date : Int) : ℚ)
              / (1461 / 4) ≠ 0 := by
          have hd : (0 : Int) < ((deriveRows ((da, pa) :: b :: c :: tl)).getLast hrne).date
              - ((deriveRows ((da, pa) :: b :: c :: tl)).head hrne).date := by
            rw [hr0date, hr1date]
            omega
          apply ne_of_gt
          apply div_pos
          · exact_mod_cast hd
          · norm_num
        have hcm : fetch_price_and_metrics (frameOf ((da, pa) :: b :: c :: tl)) none none
            = .ok (deriveRows ((da, pa) :: b :: c :: tl),
            { start := ((deriveRows ((da, pa) :: b :: c :: tl)).head hrne).date
              stop := ((deriveRows ((da, pa) :: b :: c :: tl)).getLast hrne).date
              years := ((((deriveRows ((da, pa) :: b :: c :: tl)).getLast hrne).date
                - ((deriveRows ((da, pa) :: b :: c :: tl)).head hrne).date : Int) : ℚ) / (1461 / 4)
              cum := ((deriveRows ((da, pa) :: b :: c :: tl)).getLast hrne).cum * 100
              cagrBase := ((deriveRows ((da, pa) :: b :: c :: tl)).getLast hrne).adjClose
                / ((deriveRows ((da, pa) :: b :: c :: tl)).head hrne).adjClose
              retVar := sampleVar ((deriveRows ((da, pa) :: b :: c :: tl)).map Row.ret)
              downVar := sampleVar ((deriveRows ((da, pa) :: b :: c :: tl)).map
                (fun r => min r.ret 0))
              sortinoNan := decide (sampleVar ((deriveRows ((da, pa) :: b :: c :: tl)).map
                (fun r => min r.ret 0)) = 0) }) := by
          rw [fetch_frameOf_no_bounds _ (List.cons_ne_nil _ _)]
          unfold computeMetrics
          rw [h0, h1]
          dsimp only
          rw [if_neg hy]
        refine ⟨_, hcm, ?_, ?_⟩
        · dsimp only
          rw [decide_eq_true_eq]
          constructor
          · intro h
            rw [h]
            norm_num
          · intro h
            have hnn := sampleVar_nonneg ((deriveRows ((da, pa) :: b :: c :: tl)).map
              (fun r => min r.ret 0))
            rw [Real.sqrt_eq_zero'] at h
            have hle : ((sampleVar ((deriveRows ((da, pa) :: b :: c :: tl)).map
                (fun r => min r.ret 0)) : ℚ) : ℝ) ≤ 0 := by linarith
            have hcast : sampleVar ((deriveRows ((da, pa) :: b :: c :: tl)).map
                (fun r => min r.ret 0)) ≤ 0 := by exact_mod_cast hle
            exact le_antisymm hcast hnn
        · intro hall
          dsimp only
          rw [decide_eq_true_eq]
          apply sampleVar_all_zero
          intro x hx
          simp only [List.mem_map] at hx
          obtain ⟨r, hr, rfl⟩ := hx
          exact min_eq_right (hall r hr)

/-- Witness for C6 on the rising series 100, 110, 121 over three days. -/
theorem sortino_nan_guard_witness :
    ∃ m : MetricsCore,
      fetch_price_and_metrics (frameOf [(0, 100), (1, 110), (2, 121)]) none none
        = .ok (deriveRows [(0, 100), (1, 110), (2, 121)], m) ∧
      (m.sortinoNan = true ↔ Real.sqrt (252 * (m.downVar : ℝ)) = 0) ∧
      ((∀ r ∈ deriveRows [(0, 100), (1, 110), (2, 121)], 0 ≤ r.ret) → m.sortinoNan = true) :=
  sortino_nan_guard [(0, 100), (1, 110), (2, 121)] (by decide) (by decide) (by norm_num)

/-- IEEE-754 classification of a numpy float value built by a division. -/
inductive FClass where
  | finite
  | posInf
  | negInf
  | nan
deriving DecidableEq

/-- Classification of the numpy float division `num / den` (as in line 95,
`sharpe = (cagr - risk_free_rate) / std_annual`): on a zero denominator
numpy produces +inf / -inf / nan according to the sign of the numerator -
it raises no exception - and otherwise the quotient is finite. -/
def divClassIs (num den : ℝ) : FClass → Prop
  | .finite => den ≠ 0
  | .posInf => den = 0 ∧ 0 < num
  | .negInf => den = 0 ∧ num < 0
  | .nan => den = 0 ∧ num = 0

/-- C10: on the 3-point series 100, 200, 400 both daily returns equal 1
exactly, so the annualized volatility `sqrt(252 * retVar)` is exactly zero;
the Sharpe division of line 95 then has a zero denominator and a positive
numerator `cagr - risk_free_rate`, which numpy maps to +inf with no
exception - the function still returns successfully - while the zero
Sortino denominator is explicitly guarded into NaN. -/
theorem sharpe_div_zero_unguarded :
    ∃ (rows : List Row) (m : MetricsCore),
      fetch_price_and_metrics (frameOf [(0, 100), (365, 200), (730, 400)]) none none
        = .ok (rows, m) ∧
      rows.map Row.ret = [1, 1] ∧
      m.retVar = 0 ∧
      Real.sqrt (252 * (m.retVar : ℝ)) = 0 ∧
      divClassIs (((m.cagrBase : ℝ) ^ ((1 : ℝ) / (m.years : ℝ)) - 1) - (risk_free_rate : ℝ))
        (Real.sqrt (252 * (m.retVar : ℝ))) FClass.posInf ∧
      m.sortinoNan = true := by
  refine ⟨deriveRows [(0, 100), (365, 200), (730, 400)],
    { start := 365, stop := 730, years := 1460 / 1461, cum := 300, cagrBase := 2,
      retVar := 0, downVar := 0, sortinoNan := true },
    by with_unfolding_all rfl, by with_unfolding_all rfl, rfl, by simp, ?_, rfl⟩
  refine ⟨by simp, ?_⟩
  have hbase : (((2 : ℚ) : ℝ)) = 2 := by norm_num
  have hyears : (((1460 / 1461 : ℚ) : ℝ)) = 1460 / 1461 := by push_cast; ring
  have hrf : ((risk_free_rate : ℚ) : ℝ) = 0 := by rw [risk_free_rate]; norm_num
  dsimp only
  rw [hbase, hyears, hrf]
  have hexp : (1 : ℝ) / (1460 / 1461) = 1461 / 1460 := by norm_num
  rw [hexp]
  have h1 : (1 : ℝ) < 2 ^ ((1461 : ℝ) / 1460) :=
    (Real.one_lt_rpow_iff_of_pos (by norm_num)).mpr (Or.inl ⟨by norm_num, by norm_num⟩)
  linarith

/-- One row of the per-year summary table of `calculate_retirement`
(lines 227-244): year, end date, closing price, annual return (%),
cumulative return (%). -/
structure YearRow where
  year : Int
  endDate : Int
  endPrice : ℚ
  annualReturn : ℚ
  cumReturn : ℚ
deriving DecidableEq

/-- Embedding of `g.loc[g["Date"].idxmax()]` over a nonempty group: the row with the
greatest date (first occurrence on ties). -/
def maxDateRowNE (r : Row) (rs : List Row) : Row :=
  rs.foldl (fun m x => if m.date < x.date then x else m) r

/-- Embedding of `g.loc[g["Date"].idxmin()]` over a nonempty group. -/
def minDateRowNE (r : Row) (rs : List Row) : Row :=
  rs.foldl (fun m x => if x.date < m.date then x else m) r

/-- Embedding of `g["CumReturn"].max()` over a nonempty group. -/
def cumMaxNE (r : Row) (rs : List Row) : ℚ :=
  rs.foldl (fun a x => max a x.cum) r.cum

/-- The distinct calendar years of the series in ascending order (pandas
`groupby` sorts its group keys); `yearOf` abstracts `Date.dt.year`. -/
def yearsPresent (yearOf : Int → Int) (rows : List Row) : List Int :=
  ((rows.map (fun r => yearOf r.date)).dedup).insertionSort (· ≤ ·)

/-- Lines 226-235: the per-year summary table - one row per calendar year
present, with end date (`idxmax` of Date), the adjusted close there, the
year's simple return (last over first adjusted close within the year) and
`g["CumReturn"].max()`, the two returns as percentages. -/
def yearSummary (yearOf : Int → Int) (rows : List Row) : List YearRow :=
  (yearsPresent yearOf rows).filterMap (fun y =>
    match rows.filter (fun r => yearOf r.date == y) with
    | [] => none
    | g0 :: g => some
        { year := y
          endDate := (maxDateRowNE g0 g).date
          endPrice := (maxDateRowNE g0 g).adjClose
          annualReturn := ((maxDateRowNE g0 g).adjClose / (minDateRowNE g0 g).adjClose - 1) * 100
          cumReturn := cumMaxNE g0 g * 100 })

theorem yearsPresent_mem (yearOf : Int → Int) (rows : List Row) (y : Int) :
    y ∈ yearsPresent yearOf rows ↔ ∃ r ∈ rows, yearOf r.date = y := by
  have h1 : y ∈ yearsPresent yearOf rows
      ↔ y ∈ (rows.map (fun r => yearOf r.date)).dedup :=
    (List.perm_insertionSort _ _).mem_iff
  rw [h1, List.mem_dedup, List.mem_map]

theorem yearsPresent_nodup (yearOf : Int → Int) (rows : List Row) :
    (yearsPresent yearOf rows).Nodup :=
  (List.perm_insertionSort _ _).nodup_iff.mpr (List.nodup_dedup _)

theorem yearSummary_map_year (yearOf : Int → Int) (rows : List Row) :
    (yearSummary yearOf rows).map YearRow.year = yearsPresent yearOf rows := by
  unfold yearSummary
  have key : ∀ l : List Int,
      (∀ y ∈ l, rows.filter (fun r => yearOf r.date == y) ≠ []) →
      ((l.filterMap (fun y =>
        match rows.filter (fun r => yearOf r.date == y) with
        | [] => none
        | g0 :: g => some
            { year := y
              endDate := (maxDateRowNE g0 g).date
              endPrice := (maxDateRowNE g0 g).adjClose
              annualReturn := ((maxDateRowNE g0 g).adjClose
                / (minDateRowNE g0 g).adjClose - 1) * 100
              cumReturn := cumMaxNE g0 g * 100 })).map YearRow.year) = l := by
    intro l
    induction l with
    | nil => intro _; rfl
    | cons y ys ih =>
      intro h
      have hy := h y (List.mem_cons_self _ _)
      cases hfil : rows.filter (fun r => yearOf r.date == y) with
      | nil => exact absurd hfil hy
      | cons g0 g =>
        simp only [List.filterMap_cons, hfil]
        simp only [List.map_cons]
        rw [ih (fun z hz => h z (List.mem_cons_of_mem _ hz))]
  apply key
  intro y hy
  rw [yearsPresent_mem] at hy
  obtain ⟨r, hr, hry⟩ := hy
  intro hnil
  have hmem : r ∈ rows.filter (fun r => yearOf r.date == y) := by
    rw [List.mem_filter]
    exact ⟨hr, by simp [hry]⟩
  rw [hnil] at hmem
  simp at hmem

theorem foldl_max_mem (a : ℚ) (l : List ℚ) : l.foldl max a ∈ a :: l := by
  induction l generalizing a with
  | nil => simp
  | cons b t ih =>
    simp only [List.foldl_cons]
    rcases List.mem_cons.mp (ih (max a b)) with h | h
    · rw [h]
      rcases max_choice a b with hm | hm
      · rw [hm]
        exact List.mem_cons_self _ _
      · rw [hm]
        exact List.mem_cons_of_mem _ (List.mem_cons_self _ _)
    · exact List.mem_cons_of_mem _ (List.mem_cons_of_mem _ h)

theorem le_foldl_max (a : ℚ) (l : List ℚ) : ∀ x ∈ a :: l, x ≤ l.foldl max a := by
  induction l generalizing a with
  | nil =>
    intro x hx
    simp at hx
    simp [hx]
  | cons b t ih =>
    intro x hx
    simp only [List.foldl_cons]
    rcases List.mem_cons.mp hx with rfl | hx2
    · exact le_trans (le_max_left x b) (ih (max x b) (max x b) (List.mem_cons_self _ _))
    · rcases List.mem_cons.mp hx2 with rfl | hx3
      · exact le_trans (le_max_right a x) (ih (max a x) _ (List.mem_cons_self _ _))
      · exact ih (max a b) x (List.mem_cons_of_mem _ hx3)

theorem cumMaxNE_spec (g0 : Row) (g : List Row) :
    cumMaxNE g0 g ∈ (g0 :: g).map Row.cum ∧
    ∀ x ∈ (g0 :: g).map Row.cum, x ≤ cumMaxNE g0 g := by
  have heq : cumMaxNE g0 g = (g.map Row.cum).foldl max g0.cum := by
    rw [List.foldl_map]
    rfl
  constructor
  · rw [heq, List.map_cons]
    exact foldl_max_mem _ _
  · intro x hx
    rw [List.map_cons] at hx
    rw [heq]
    exact le_foldl_max _ _ x hx

theorem maxDateRowNE_eq_getLast (rs : List Row) :
    ∀ r : Row, (r :: rs).Pairwise (fun a b => a.date < b.date) →
    maxDateRowNE r rs = (r :: rs).getLast (List.cons_ne_nil _ _) := by
  induction rs with
  | nil => intro r _; rfl
  | cons x xs ih =>
    intro r hp
    have hrx : r.date < x.date := (List.pairwise_cons.mp hp).1 x (List.mem_cons_self _ _)
    have htail := (List.pairwise_cons.mp hp).2
    unfold maxDateRowNE
    simp only [List.foldl_cons]
    rw [if_pos hrx]
    have hx := ih x htail
    unfold maxDateRowNE at hx
    rw [hx, List.getLast_cons (List.cons_ne_nil _ _)]

theorem minDateRowNE_eq_head (rs : List Row) :
    ∀ r : Row, (∀ x ∈ rs, r.date < x.date) → minDateRowNE r rs = r := by
  induction rs with
  | nil => intro r _; rfl
  | cons x xs ih =>
    intro r h
    have hrx : r.date < x.date := h x (List.mem_cons_self _ _)
    unfold minDateRowNE
    simp only [List.foldl_cons]
    rw [if_neg (lt_asymm hrx)]
    exact ih r (fun z hz => h z (List.mem_cons_of_mem _ hz))

/-- C5 (amended): for a ReturnSeries with strictly increasing dates, the
per-year table has exactly one row per calendar year present, in ascending
year order; each row carries the last trading date of its year, the
adjusted close on that date, the year's simple return
(last / first adjusted close within the year - 1, in percent), and the
maximum of the series' cumulative return within that year (in percent) -
`g["CumReturn"].max()`, not the value at the year's last date. -/
theorem yearSummary_spec (yearOf : Int → Int) (rows : List Row)
    (hsort : rows.Pairwise (fun a b => a.date < b.date)) :
    (yearSummary yearOf rows).map YearRow.year = yearsPresent yearOf rows ∧
    List.Sorted (· ≤ ·) (yearsPresent yearOf rows) ∧
    (yearsPresent yearOf rows).Nodup ∧
    (∀ y, y ∈ yearsPresent yearOf rows ↔ ∃ r ∈ rows, yearOf r.date = y) ∧
    (∀ row ∈ yearSummary yearOf rows,
      ∃ (g : List Row) (hg : g ≠ []),
        g = rows.filter (fun r => yearOf r.date == row.year) ∧
        row.endDate = (g.getLast hg).date ∧
        row.endPrice = (g.getLast hg).adjClose ∧
        row.annualReturn = ((g.getLast hg).adjClose / (g.head hg).adjClose - 1) * 100 ∧
        row.cumReturn ∈ g.map (fun r => r.cum * 100) ∧
        (∀ c ∈ g.map (fun r => r.cum * 100), c ≤ row.cumReturn)) := by
  refine ⟨yearSummary_map_year yearOf rows, List.sorted_insertionSort _ _,
    yearsPresent_nodup yearOf rows, fun y => yearsPresent_mem yearOf rows y,
    fun row hrow => ?_⟩
  unfold yearSummary at hrow
  rw [List.mem_filterMap] at hrow
  obtain ⟨y, hy, hfy⟩ := hrow
  cases hfil : rows.filter (fun r => yearOf r.date == y) with
  | nil =>
    rw [hfil] at hfy
    simp at hfy
  | cons g0 grest =>
    rw [hfil] at hfy
    simp only [Option.some.injEq] at hfy
    have hgp : (g0 :: grest).Pairwise (fun a b => a.date < b.date) := by
      have := hsort.filter (fun r => yearOf r.date == y)
      rw [hfil] at this
      exact this
    have hmax : maxDateRowNE g0 grest = (g0 :: grest).getLast (List.cons_ne_nil _ _) :=
      maxDateRowNE_eq_getLast grest g0 hgp
    have hmin : minDateRowNE g0 grest = g0 :=
      minDateRowNE_eq_head grest g0 (List.pairwise_cons.mp hgp).1
    have hyear : row.year = y := by rw [← hfy]
    refine ⟨g0 :: grest, List.cons_ne_nil _ _, ?_, ?_, ?_, ?_, ?_, ?_⟩
    · rw [hyear, hfil]
    · rw [← hfy, hmax]
    · rw [← hfy, hmax]
    · rw [← hfy, hmax, hmin]
      rfl
    · rw [← hfy]
      obtain ⟨hm, _⟩ := cumMaxNE_spec g0 grest
      rw [List.mem_map] at hm
      obtain ⟨r, hr, hrc⟩ := hm
      dsimp only
      rw [List.mem_map]
      exact ⟨r, hr, by rw [hrc]⟩
    · rw [← hfy]
      intro c hc
      rw [List.mem_map] at hc
      obtain ⟨r, hr, hrc⟩ := hc
      obtain ⟨_, hub⟩ := cumMaxNE_spec g0 grest
      have hle : r.cum ≤ cumMaxNE g0 grest := hub r.cum (List.mem_map_of_mem Row.cum hr)
      dsimp only
      rw [← hrc]
      exact mul_le_mul_of_nonneg_right hle (by norm_num)

/-- C5 counterexample: for the series 100, 200, 100 on three days of one
calendar year, the table row shows cumulative return 100 (the in-year
maximum, `g["CumReturn"].max()`), while the series' cumulative return as of
that year's last trading date is 0. -/
theorem yearSummary_cum_counterexample :
    yearSummary (fun _ => 2020) (deriveRows [(0, 100), (1, 200), (2, 100)])
      = [{ year := 2020, endDate := 2, endPrice := 100,
           annualReturn := -50, cumReturn := 100 }] ∧
    ((deriveRows [(0, 100), (1, 200), (2, 100)]).getLast?).map (fun r => r.cum * 100)
      = some 0 ∧
    (100 : ℚ) ≠ 0 :=
  ⟨by with_unfolding_all rfl, by with_unfolding_all rfl, by norm_num⟩

/-- Witness for C5: the summary of a two-year series lists exactly its two
years in ascending order. -/
theorem yearSummary_spec_witness :
    (yearSummary (fun d => d / 365)
        (deriveRows [(0, 100), (365, 200), (730, 100)])).map YearRow.year
      = yearsPresent (fun d => d / 365) (deriveRows [(0, 100), (365, 200), (730, 100)]) :=
  (yearSummary_spec (fun d => d / 365) (deriveRows [(0, 100), (365, 200), (730, 100)])
    (of_decide_eq_true (by with_unfolding_all rfl))).1

/-- Justification of the `sortinoNan` encoding: the float denominator
`d_std = Series.std() * sqrt(252) = sqrt(252 * downVar)` of line 99 is
exactly zero precisely when the rational sample variance `downVar` is zero,
so the `if d_std` guard of line 100 is the test `downVar = 0`. -/
theorem d_std_zero_iff (v : ℚ) (hv : 0 ≤ v) :
    Real.sqrt (252 * (v : ℝ)) = 0 ↔ v = 0 := by
  rw [Real.sqrt_eq_zero']
  constructor
  · intro h
    have hcastv : (0 : ℝ) ≤ (v : ℝ) := by exact_mod_cast hv
    have hle : (v : ℝ) ≤ 0 := by linarith
    have : (v : ℝ) = 0 := le_antisymm hle hcastv
    exact_mod_cast this
  · intro h
    rw [h]
    norm_num
